import Mathlib

/-!
Verification development for the Kanban-Board repository: a shallow
embedding of the board state model (types/task.js, hooks/useKanban.js,
services/storage.js) and proofs about its operations.

Modelling conventions:
* JavaScript objects used as string-keyed maps (`tasks`, `columns`) are
  association lists in insertion order; `{...obj, [k]: v}` replaces the
  value in place when the key exists and appends otherwise, `delete`
  removes the entry, `Object.keys/values/entries` enumerate in order.
* Timestamps (`new Date().toISOString()`, `Date.now()`) are natural
  numbers of milliseconds; the current instant is passed explicitly as a
  `now` parameter.  Calendar arithmetic is modelled at UTC (the local
  timezone of the model).
* Fresh ids produced by utils/idGenerator.js are passed in explicitly;
  the generator contract (uniqueness) becomes a freshness hypothesis.
* Thrown `Error`s become `Except String`, carrying the thrown message;
  a mutation either returns the new snapshot or fails leaving the prior
  snapshot to the caller.
* `window.confirm` gates in deleteTask / deleteColumn / clearBoard are
  modelled on their confirmed path (declining leaves the board unchanged).
-/

namespace KB

/-! ## JavaScript object model -/

def jsKeys (m : List (String × α)) : List String := m.map Prod.fst

def jsValues (m : List (String × α)) : List α := m.map Prod.snd

/-- Property read `obj[k]`: first entry with the key, if any. -/
def jsGet (m : List (String × α)) (k : String) : Option α :=
  (m.find? (fun p => p.1 == k)).map Prod.snd

/-- Object spread update `{...obj, [k]: v}`: replaces in place when the
key is present, appends otherwise. -/
def jsSet (m : List (String × α)) (k : String) (v : α) : List (String × α) :=
  if m.any (fun p => p.1 == k) then
    m.map (fun p => if p.1 == k then (k, v) else p)
  else
    m ++ [(k, v)]

/-- Property removal `delete obj[k]`. -/
def jsDelete (m : List (String × α)) (k : String) : List (String × α) :=
  m.filter (fun p => p.1 != k)

/-! ## Date model

JavaScript `Date` is modelled for the calendar-date strings the app
produces (`<input type="date">`): `YYYY-MM-DD` parses to the UTC-midnight
millisecond timestamp; every other string is an unparseable (`NaN`) date.
`setHours(0,0,0,0)` becomes flooring to a day boundary. -/

def isLeapYear (y : Nat) : Bool :=
  (y % 4 == 0 && y % 100 != 0) || y % 400 == 0

def daysInMonth (y m : Nat) : Nat :=
  if m == 2 then (if isLeapYear y then 29 else 28)
  else if m == 4 || m == 6 || m == 9 || m == 11 then 30
  else 31

def daysSinceEpoch (y m d : Nat) : Nat :=
  ((List.range (y - 1970)).foldl
    (fun acc i => acc + (if isLeapYear (1970 + i) then 366 else 365)) 0)
  + ((List.range (m - 1)).foldl (fun acc i => acc + daysInMonth y (i + 1)) 0)
  + (d - 1)

def msPerDay : Nat := 86400000

def splitOnDash : List Char → List (List Char)
  | [] => [[]]
  | c :: rest =>
    if c = '-' then [] :: splitOnDash rest
    else
      match splitOnDash rest with
      | [] => [[c]]
      | x :: xs => (c :: x) :: xs

def digitsToNat (cs : List Char) : Option Nat :=
  if cs.isEmpty then none
  else if cs.all Char.isDigit then
    some (cs.foldl (fun a c => a * 10 + (c.toNat - 48)) 0)
  else none

/-- Modelled platform primitive: `new Date(s).getTime()` for the
`YYYY-MM-DD` strings produced by the date inputs; `none` is a `NaN` date. -/
def parseDate (s : String) : Option Nat :=
  match splitOnDash s.data with
  | [ys, ms, ds] =>
    match digitsToNat ys, digitsToNat ms, digitsToNat ds with
    | some y, some m, some d =>
      if ys.length == 4 && ms.length == 2 && ds.length == 2 &&
         1970 ≤ y && 1 ≤ m && m ≤ 12 && 1 ≤ d && d ≤ daysInMonth y m then
        some (daysSinceEpoch y m d * msPerDay)
      else none
    | _, _, _ => none
  | _ => none

/-- Truncation to the containing calendar day (`setHours(0,0,0,0)`). -/
def dayFloor (t : Nat) : Nat := t / msPerDay * msPerDay

/-- `String.prototype.trim`. -/
def trimStr (s : String) : String :=
  ⟨((s.data.dropWhile Char.isWhitespace).reverse.dropWhile Char.isWhitespace).reverse⟩

/-! ## Entity model: types/task.js -/

structure ValidationResult where
  isValid : Bool
  errors : List String
  deriving DecidableEq

/-- `Object.values(PRIORITY_LEVELS)` from utils/constants.js. -/
def PRIORITY_VALUES : List String := ["low", "medium", "high"]

/-- `COLUMN_COLORS.map(c => c.value)` from utils/constants.js. -/
def COLUMN_COLOR_VALUES : List String :=
  ["bg-gray-100", "bg-blue-50", "bg-green-50", "bg-yellow-50",
   "bg-purple-50", "bg-pink-50", "bg-indigo-50"]

structure Task where
  id : String
  title : String
  description : String
  priority : String
  assignee : String
  dueDate : String
  createdAt : Nat
  updatedAt : Nat
  deriving DecidableEq

/-- TaskType.validate (types/task.js): error messages accumulated in
source order.  String lengths are counted in characters. -/
def Task.validate (t : Task) : ValidationResult :=
  let errors :=
    (if t.title == "" || (trimStr t.title).data.length == 0 then
      ["Title is required"] else []) ++
    (if t.title != "" && t.title.data.length > 100 then
      ["Title must be less than 100 characters"] else []) ++
    (if t.description != "" && t.description.data.length > 500 then
      ["Description must be less than 500 characters"] else []) ++
    (if t.priority != "" && !(PRIORITY_VALUES.contains t.priority) then
      ["Invalid priority level"] else []) ++
    (if t.assignee != "" && t.assignee.data.length > 50 then
      ["Assignee name must be less than 50 characters"] else []) ++
    (if t.dueDate != "" && (parseDate t.dueDate).isNone then
      ["Invalid due date format"] else [])
  { isValid := errors.isEmpty, errors := errors }

/-- TaskType.isOverdue: false for an empty `dueDate`; an unparseable date
is `NaN`, and `NaN` comparisons are false; otherwise both dates are
floored to their day and compared strictly. -/
def Task.isOverdue (t : Task) (now : Nat) : Bool :=
  if t.dueDate == "" then false
  else
    match parseDate t.dueDate with
    | none => false
    | some d => decide (dayFloor d < dayFloor now)

structure TaskPatch where
  title : Option String := none
  description : Option String := none
  priority : Option String := none
  assignee : Option String := none
  dueDate : Option String := none
  deriving DecidableEq

/-- The spread `{...this.toObject(), ...updates, updatedAt: now}`. -/
def Task.applyPatch (t : Task) (p : TaskPatch) (now : Nat) : Task :=
  { t with
    title := p.title.getD t.title,
    description := p.description.getD t.description,
    priority := p.priority.getD t.priority,
    assignee := p.assignee.getD t.assignee,
    dueDate := p.dueDate.getD t.dueDate,
    updatedAt := now }

/-- TaskType.update: merge the patch, stamp `updatedAt`, re-validate. -/
def Task.update (t : Task) (p : TaskPatch) (now : Nat) : Except String Task :=
  let updatedTask := t.applyPatch p now
  let validation := updatedTask.validate
  if validation.isValid then .ok updatedTask
  else .error ("Invalid task data: " ++ String.intercalate ", " validation.errors)

structure TaskForm where
  id : String := ""
  title : String := ""
  description : String := ""
  priority : String := ""
  assignee : String := ""
  dueDate : String := ""
  deriving DecidableEq

/-- JavaScript `x || dflt` on strings (the empty string is falsy). -/
def jsOr (s dflt : String) : String := if s == "" then dflt else s

/-- TaskFactory.createFromForm (types/task.js lines 177-185): reads only
`title`, `description`, `priority`, `assignee` and `dueDate` off the form
object.  The `id` field the store passes in is not forwarded, so the
constructor default, the empty string, becomes the task id. -/
def TaskFactory.createFromForm (now : Nat) (formData : TaskForm) : Task :=
  { id := "",
    title := jsOr formData.title "",
    description := jsOr formData.description "",
    priority := jsOr formData.priority "medium",
    assignee := jsOr formData.assignee "",
    dueDate := jsOr formData.dueDate "",
    createdAt := now,
    updatedAt := now }

structure Column where
  id : String
  title : String
  color : String
  taskIds : List String
  createdAt : Nat
  updatedAt : Nat
  order : Nat
  deriving DecidableEq

/-- ColumnType.validate.  The `Array.isArray(taskIds)` check cannot fail
in the typed model, so it contributes no error. -/
def Column.validate (c : Column) : ValidationResult :=
  let errors :=
    (if c.title == "" || (trimStr c.title).data.length == 0 then
      ["Title is required"] else []) ++
    (if c.title != "" && c.title.data.length > 50 then
      ["Title must be less than 50 characters"] else []) ++
    (if c.color != "" && !(COLUMN_COLOR_VALUES.contains c.color) then
      ["Invalid column color"] else []) ++
    (if c.taskIds.length > 100 then
      ["Column cannot contain more than 100 tasks"] else [])
  { isValid := errors.isEmpty, errors := errors }

structure ColumnPatch where
  title : Option String := none
  color : Option String := none
  taskIds : Option (List String) := none
  order : Option Nat := none
  deriving DecidableEq

def Column.applyPatch (c : Column) (p : ColumnPatch) (now : Nat) : Column :=
  { c with
    title := p.title.getD c.title,
    color := p.color.getD c.color,
    taskIds := p.taskIds.getD c.taskIds,
    order := p.order.getD c.order,
    updatedAt := now }

/-- ColumnType.update: merge the patch, stamp `updatedAt`, re-validate. -/
def Column.update (c : Column) (p : ColumnPatch) (now : Nat) : Except String Column :=
  let updatedColumn := c.applyPatch p now
  let validation := updatedColumn.validate
  if validation.isValid then .ok updatedColumn
  else .error ("Invalid column data: " ++ String.intercalate ", " validation.errors)

/-- `Array.prototype.splice` start-index normalization: a negative start
counts back from the end, clamped at 0; a nonnegative start is clamped to
the array length. -/
def spliceStart (len : Nat) (start : Int) : Nat :=
  if start < 0 then ((len : Int) + start).toNat else min start.toNat len

/-- ColumnType.moveTask (types/task.js lines 326-343): remove the id at
its current index, `splice` it back in at `newIndex`, then go through
`update` (which stamps `updatedAt` and re-validates). -/
def Column.moveTask (c : Column) (now : Nat) (taskId : String) (newIndex : Int) :
    Except String Column :=
  if !(c.taskIds.contains taskId) then .error "Task not found in column"
  else
    let currentIndex := c.taskIds.findIdx (fun id => id == taskId)
    let removed := c.taskIds.take currentIndex ++ c.taskIds.drop (currentIndex + 1)
    let i := spliceStart removed.length newIndex
    let newTaskIds := removed.take i ++ taskId :: removed.drop i
    c.update { taskIds := some newTaskIds } now

structure ColumnForm where
  id : String := ""
  title : String := ""
  color : String := ""
  order : Nat := 0
  deriving DecidableEq

/-- ColumnFactory.createFromForm (types/task.js lines 412-417): reads only
`title` and `color` off the form object.  The `id` and `order` fields the
store passes in are not forwarded, so the constructor defaults — empty id
and `order = 0` — are used. -/
def ColumnFactory.createFromForm (now : Nat) (formData : ColumnForm) : Column :=
  { id := "",
    title := jsOr formData.title "",
    color := jsOr formData.color "bg-gray-100",
    taskIds := [],
    createdAt := now,
    updatedAt := now,
    order := 0 }

/-! ## Board store: hooks/useKanban.js -/

structure Board where
  tasks : List (String × Task)
  columns : List (String × Column)
  columnOrder : List String
  lastModified : Nat
  deriving DecidableEq

/-- updateBoardData (useKanban.js lines 43-51): run the updater on the
previous snapshot and stamp `lastModified` on whatever it returns.  A
thrown updater propagates, leaving the prior snapshot in place. -/
def updateBoardData (b : Board) (now : Nat) (updater : Board → Except String Board) :
    Except String Board :=
  (updater b).map (fun newData => { newData with lastModified := now })

/-- addTask (useKanban.js lines 63-96).  `taskId` stands for the value of
`generateTaskId()`.  Validation runs before the board update; a missing
column is detected inside the updater. -/
def addTask (b : Board) (now : Nat) (taskId columnId : String) (taskData : TaskForm) :
    Except String (Board × String) :=
  let task := TaskFactory.createFromForm now { taskData with id := taskId }
  let validation := task.validate
  if !validation.isValid then
    .error (String.intercalate ", " validation.errors)
  else
    match updateBoardData b now (fun prevData =>
      match jsGet prevData.columns columnId with
      | none => .error ("Column " ++ columnId ++ " not found")
      | some column =>
        .ok { prevData with
          tasks := jsSet prevData.tasks taskId task,
          columns := jsSet prevData.columns columnId
            { column with taskIds := column.taskIds ++ [taskId], updatedAt := now } }) with
    | .error e => .error e
    | .ok nb => .ok (nb, taskId)

/-- updateTask (useKanban.js lines 103-121). -/
def updateTask (b : Board) (now : Nat) (taskId : String) (updates : TaskPatch) :
    Except String Board :=
  updateBoardData b now (fun prevData =>
    match jsGet prevData.tasks taskId with
    | none => .error ("Task " ++ taskId ++ " not found")
    | some existingTask =>
      match existingTask.update updates now with
      | .error e => .error e
      | .ok updatedTask =>
        .ok { prevData with tasks := jsSet prevData.tasks taskId updatedTask })

/-- deleteTask (useKanban.js lines 128-169), confirmed path.  The
`for ... of Object.entries` scan with `break` is the first column whose
`taskIds` contains the id. -/
def deleteTask (b : Board) (now : Nat) (taskId : String) : Except String Board :=
  updateBoardData b now (fun prevData =>
    match prevData.columns.find? (fun p => p.2.taskIds.contains taskId) with
    | none => .error ("Task " ++ taskId ++ " not found in any column")
    | some (sourceColumnId, sourceColumn) =>
      .ok { prevData with
        tasks := jsDelete prevData.tasks taskId,
        columns := jsSet prevData.columns sourceColumnId
          { sourceColumn with
            taskIds := sourceColumn.taskIds.filter (fun id => id != taskId),
            updatedAt := now } })

/-- moveTask (useKanban.js lines 176-223): locate the source column by
scanning membership; same source and target is a no-op updater (but
`updateBoardData` still stamps `lastModified`); otherwise remove from the
source ids and append to the end of the target ids. -/
def moveTask (b : Board) (now : Nat) (taskId targetColumnId : String) :
    Except String Board :=
  updateBoardData b now (fun prevData =>
    match prevData.columns.find? (fun p => p.2.taskIds.contains taskId) with
    | none => .error ("Task " ++ taskId ++ " not found")
    | some (sourceColumnId, sourceColumn) =>
      if sourceColumnId == targetColumnId then .ok prevData
      else
        match jsGet prevData.columns targetColumnId with
        | none => .error ("Target column " ++ targetColumnId ++ " not found")
        | some targetColumn =>
          .ok { prevData with
            columns := jsSet
              (jsSet prevData.columns sourceColumnId
                { sourceColumn with
                  taskIds := sourceColumn.taskIds.filter (fun id => id != taskId),
                  updatedAt := now })
              targetColumnId
              { targetColumn with
                taskIds := targetColumn.taskIds ++ [taskId],
                updatedAt := now } })

/-- addColumn (useKanban.js lines 234-257).  `columnId` stands for the
value of `generateColumnId()`; the factory is called with
`order: boardData.columnOrder.length` (which it ignores). -/
def addColumn (b : Board) (now : Nat) (columnId : String) (columnData : ColumnForm) :
    Except String (Board × String) :=
  let column := ColumnFactory.createFromForm now
    { columnData with id := columnId, order := b.columnOrder.length }
  let validation := column.validate
  if !validation.isValid then
    .error (String.intercalate ", " validation.errors)
  else
    match updateBoardData b now (fun prevData =>
      .ok { prevData with
        columns := jsSet prevData.columns columnId column,
        columnOrder := prevData.columnOrder ++ [columnId] }) with
    | .error e => .error e
    | .ok nb => .ok (nb, columnId)

/-- updateColumn (useKanban.js lines 264-282). -/
def updateColumn (b : Board) (now : Nat) (columnId : String) (updates : ColumnPatch) :
    Except String Board :=
  updateBoardData b now (fun prevData =>
    match jsGet prevData.columns columnId with
    | none => .error ("Column " ++ columnId ++ " not found")
    | some existingColumn =>
      match existingColumn.update updates now with
      | .error e => .error e
      | .ok updatedColumn =>
        .ok { prevData with columns := jsSet prevData.columns columnId updatedColumn })

/-- deleteColumn (useKanban.js lines 289-326), confirmed path: the column
is looked up before the confirmation dialog, its tasks are deleted from
`tasks`, the column from `columns`, and its id filtered from
`columnOrder`. -/
def deleteColumn (b : Board) (now : Nat) (columnId : String) : Except String Board :=
  match jsGet b.columns columnId with
  | none => .error ("Column " ++ columnId ++ " not found")
  | some column =>
    updateBoardData b now (fun prevData =>
      .ok { prevData with
        tasks := column.taskIds.foldl (fun acc taskId => jsDelete acc taskId) prevData.tasks,
        columns := jsDelete prevData.columns columnId,
        columnOrder := prevData.columnOrder.filter (fun id => id != columnId) })

/-- reorderColumns (useKanban.js lines 332-337): the updater replaces
`columnOrder` with the argument, with no validation of any kind. -/
def reorderColumns (b : Board) (now : Nat) (newColumnOrder : List String) :
    Except String Board :=
  updateBoardData b now (fun prevData =>
    .ok { prevData with columnOrder := newColumnOrder })

/-- clearBoard (useKanban.js lines 406-416), confirmed path. -/
def clearBoard (b : Board) (now : Nat) : Except String Board :=
  updateBoardData b now (fun _ =>
    .ok { tasks := [], columns := [], columnOrder := [], lastModified := now })

/-- getTask (useKanban.js lines 348-350). -/
def getTask (b : Board) (taskId : String) : Option Task :=
  jsGet b.tasks taskId

/-- getColumn (useKanban.js lines 357-359). -/
def getColumn (b : Board) (columnId : String) : Option Column :=
  jsGet b.columns columnId

/-- getTasksForColumn (useKanban.js lines 366-373): `[]` for an unknown
column; otherwise map the column's taskIds to their entries (`undefined`
when absent, modelled as `Option`) and `filter(Boolean)`. -/
def getTasksForColumn (b : Board) (columnId : String) : List Task :=
  match jsGet b.columns columnId with
  | none => []
  | some column =>
    (((column.taskIds).map (fun taskId => jsGet b.tasks taskId)).filter
      Option.isSome).reduceOption

structure BoardStats where
  totalTasks : Nat
  totalColumns : Nat
  tasksByPriority : List (String × Nat)
  overdueTasks : Nat
  lastModified : Nat
  deriving DecidableEq

/-- getBoardStats (useKanban.js lines 379-401).  Note the overdue filter
compares the raw due-date timestamp against the current instant
(`new Date(task.dueDate) < new Date()`), not at day granularity; an
unparseable date is `NaN` and compares false. -/
def getBoardStats (b : Board) (now : Nat) : BoardStats :=
  { totalTasks := (jsKeys b.tasks).length,
    totalColumns := (jsKeys b.columns).length,
    tasksByPriority := (jsValues b.tasks).foldl
      (fun acc task => jsSet acc task.priority ((jsGet acc task.priority).getD 0 + 1)) [],
    overdueTasks := ((jsValues b.tasks).filter (fun task =>
      if task.dueDate == "" then false
      else
        match parseDate task.dueDate with
        | none => false
        | some d => decide (d < now))).length,
    lastModified := b.lastModified }

/-! ## Raw JavaScript values, the import gate, and the import/export codec -/

inductive JVal where
  | jundefined : JVal
  | jnull : JVal
  | jbool : Bool → JVal
  | jnum : Int → JVal
  | jstr : String → JVal
  | jarr : List JVal → JVal
  | jobj : List (String × JVal) → JVal

/-- JavaScript truthiness. -/
def truthy : JVal → Bool
  | .jundefined => false
  | .jnull => false
  | .jbool b => b
  | .jnum n => n != 0
  | .jstr s => s != ""
  | .jarr _ => true
  | .jobj _ => true

/-- Property read `v.k` in expression position when it cannot throw:
objects yield the field or `undefined`; primitives and arrays yield
`undefined` (named fields of arrays are not modelled). -/
def fieldOf : JVal → String → JVal
  | .jobj fs, k => ((fs.find? (fun p => p.1 == k)).map Prod.snd).getD .jundefined
  | _, _ => .jundefined

/-- Property read `v.k` including the throwing cases: reading a property
of `null` or `undefined` throws a TypeError. -/
def getFieldE : JVal → String → Except String JVal
  | .jnull, k => .error ("Cannot read properties of null (reading " ++ k ++ ")")
  | .jundefined, k => .error ("Cannot read properties of undefined (reading " ++ k ++ ")")
  | v, k => .ok (fieldOf v k)

/-- Object spread `{...v}`: the fields of an object, nothing for
primitives and null (array index-key spread is not modelled; only object
payloads flow through the modelled import path). -/
def spreadFields : JVal → List (String × JVal)
  | .jobj fs => fs
  | _ => []

/-- importBoardData (useKanban.js lines 422-431): the store-side gate
checks only that `importData`, `importData.tasks` and
`importData.columns` are truthy — `columnOrder` and the field types are
not verified — then replaces the whole board state with
`{...importData, lastModified: now}` (the raw new state is returned; on
error the caller keeps the prior board). -/
def importBoardData (now : Nat) (importData : JVal) : Except String JVal :=
  if !(truthy importData) || !(truthy (fieldOf importData "tasks")) ||
     !(truthy (fieldOf importData "columns")) then
    .error "Invalid import data structure"
  else
    .ok (.jobj (jsSet (spreadFields importData) "lastModified" (.jnum (now : Int))))

/-- The board-typed image of the store's import: a payload that is
already a well-shaped board object always passes the truthiness gate
(object fields are truthy), and the spread rebuilds exactly that board,
with `lastModified` stamped by `updateBoardData`. -/
def importBoardTyped (b : Board) (now : Nat) (d : Board) : Except String Board :=
  updateBoardData b now (fun _ => .ok d)

structure ImportResult where
  success : Bool
  data : JVal := .jundefined
  version : JVal := .jundefined
  exportedAt : JVal := .jundefined
  error : Option String := none

/-- ImportExportService.importFromJSON (services/storage.js lines
252-276).  `JSON.parse` is a platform primitive, modelled by its outcome:
`.error m` is a parse exception with message `m`, `.ok v` the parsed
value.  The body — the structural check with its short-circuiting member
accesses, and the surrounding try/catch — is translated directly; the
repeated reads of `importData.data` all return the same value, and the
`version` / `exportedAt` reads cannot throw once a property read on the
envelope has succeeded, so they use the non-throwing accessor. -/
def importFromJSON (parsed : Except String JVal) : ImportResult :=
  let failFormat : ImportResult :=
    { success := false,
      error := some "Invalid file format: Missing required data structure" }
  let body : Except String ImportResult :=
    match parsed with
    | .error m => .error m
    | .ok importData =>
      match getFieldE importData "data" with
      | .error m => .error m
      | .ok d1 =>
        if !(truthy d1) then .ok failFormat
        else
          match getFieldE d1 "tasks" with
          | .error m => .error m
          | .ok t =>
            if !(truthy t) then .ok failFormat
            else
              match getFieldE d1 "columns" with
              | .error m => .error m
              | .ok c =>
                if !(truthy c) then .ok failFormat
                else
                  .ok { success := true, data := d1,
                        version := fieldOf importData "version",
                        exportedAt := fieldOf importData "exportedAt" }
  match body with
  | .ok r => r
  | .error m => { success := false, error := some ("Invalid JSON format: " ++ m) }

/-! ## Association-list lemmas for the object model -/

theorem mem_keyed {m : List (String × α)} {p : String × α} (hp : p ∈ m) {k : String}
    (h : p.1 = k) : (k, p.2) ∈ m := by
  cases p with
  | mk a b => cases h; exact hp

theorem mem_jsKeys {m : List (String × α)} {k : String} :
    k ∈ jsKeys m ↔ ∃ v, (k, v) ∈ m := by
  constructor
  · intro h
    rcases List.mem_map.mp h with ⟨p, hp, hk⟩
    exact ⟨p.2, mem_keyed hp hk⟩
  · rintro ⟨v, hv⟩
    exact List.mem_map.mpr ⟨(k, v), hv, rfl⟩

theorem any_key_iff {m : List (String × α)} {k : String} :
    m.any (fun p => p.1 == k) = true ↔ k ∈ jsKeys m := by
  rw [List.any_eq_true, mem_jsKeys]
  constructor
  · rintro ⟨p, hp, he⟩
    exact ⟨p.2, mem_keyed hp (by simpa using he)⟩
  · rintro ⟨v, hv⟩
    exact ⟨(k, v), hv, by simp⟩

theorem find?_key_eq_none {m : List (String × α)} {k : String} (h : k ∉ jsKeys m) :
    m.find? (fun p => p.1 == k) = none :=
  List.find?_eq_none.mpr (fun p hp he =>
    h (mem_jsKeys.mpr ⟨p.2, mem_keyed hp (by simpa using he)⟩))

theorem jsGet_eq_none_iff {m : List (String × α)} {k : String} :
    jsGet m k = none ↔ k ∉ jsKeys m := by
  unfold jsGet
  constructor
  · intro h hk
    rcases mem_jsKeys.mp hk with ⟨v, hv⟩
    cases hf : m.find? (fun p => p.1 == k) with
    | none => exact (List.find?_eq_none.mp hf) (k, v) hv (by simp)
    | some p => rw [hf] at h; simp at h
  · intro h
    rw [find?_key_eq_none h]
    rfl

theorem mem_of_jsGet_eq_some {m : List (String × α)} {k : String} {v : α}
    (h : jsGet m k = some v) : (k, v) ∈ m := by
  unfold jsGet at h
  cases hf : m.find? (fun p => p.1 == k) with
  | none => rw [hf] at h; simp at h
  | some p =>
    rw [hf] at h
    have hk : p.1 = k := by simpa using List.find?_some hf
    have hm := List.mem_of_find?_eq_some hf
    have hv : p.2 = v := by simpa using h
    have := mem_keyed hm hk
    rwa [hv] at this

theorem jsGet_mem_keys {m : List (String × α)} {k : String} {v : α}
    (h : jsGet m k = some v) : k ∈ jsKeys m :=
  mem_jsKeys.mpr ⟨v, mem_of_jsGet_eq_some h⟩

theorem jsGet_eq_of_mem {m : List (String × α)} (hn : (jsKeys m).Nodup)
    {k : String} {v : α} (h : (k, v) ∈ m) : jsGet m k = some v := by
  induction m with
  | nil => simp at h
  | cons a t ih =>
    rw [jsKeys, List.map_cons, List.nodup_cons] at hn
    rcases List.mem_cons.mp h with h | h
    · rw [← h]
      simp [jsGet, List.find?]
    · have hak : a.1 ≠ k := by
        intro he
        exact hn.1 (he ▸ mem_jsKeys.mpr ⟨v, h⟩)
      have ht : jsGet t k = some v := ih hn.2 h
      unfold jsGet at ht ⊢
      rw [List.find?_cons_of_neg _ (by simpa using hak)]
      exact ht

theorem jsGet_unique {m : List (String × α)} (hn : (jsKeys m).Nodup)
    {k : String} {v v' : α} (h : (k, v) ∈ m) (h' : jsGet m k = some v') : v = v' := by
  have hv := jsGet_eq_of_mem hn h
  rw [hv] at h'
  exact Option.some_injective _ h'

theorem jsKeys_map_keyUpdate (m : List (String × α)) (k : String) (v : α) :
    jsKeys (m.map (fun p => if p.1 == k then (k, v) else p)) = jsKeys m := by
  unfold jsKeys
  rw [List.map_map]
  refine List.map_congr_left (fun p _ => ?_)
  by_cases h : p.1 = k <;> simp [h]

theorem jsSet_of_mem {m : List (String × α)} {k : String} (h : k ∈ jsKeys m) (v : α) :
    jsSet m k v = m.map (fun p => if p.1 == k then (k, v) else p) := by
  unfold jsSet
  rw [if_pos (any_key_iff.mpr h)]

theorem jsSet_of_not_mem {m : List (String × α)} {k : String} (h : k ∉ jsKeys m) (v : α) :
    jsSet m k v = m ++ [(k, v)] := by
  unfold jsSet
  rw [if_neg (fun hc => h (any_key_iff.mp hc))]

theorem jsKeys_jsSet_of_mem {m : List (String × α)} {k : String} (h : k ∈ jsKeys m) (v : α) :
    jsKeys (jsSet m k v) = jsKeys m := by
  rw [jsSet_of_mem h, jsKeys_map_keyUpdate]

theorem jsKeys_jsSet_of_not_mem {m : List (String × α)} {k : String} (h : k ∉ jsKeys m) (v : α) :
    jsKeys (jsSet m k v) = jsKeys m ++ [k] := by
  rw [jsSet_of_not_mem h]
  simp [jsKeys]

theorem find?_keyUpdate_self {m : List (String × α)} {k : String} (h : k ∈ jsKeys m) (v : α) :
    (m.map (fun p => if p.1 == k then (k, v) else p)).find? (fun p => p.1 == k) =
      some (k, v) := by
  induction m with
  | nil => simp [jsKeys] at h
  | cons a t ih =>
    by_cases ha : a.1 = k
    · have hhead : (if (a.1 == k) = true then (k, v) else a) = (k, v) :=
        if_pos (by simpa using ha)
      rw [List.map_cons, hhead, List.find?_cons_of_pos _ (by simp)]
    · have ht : k ∈ jsKeys t := by
        rcases mem_jsKeys.mp h with ⟨w, hw⟩
        rcases List.mem_cons.mp hw with he | he
        · exact absurd (congrArg Prod.fst he.symm) ha
        · exact mem_jsKeys.mpr ⟨w, he⟩
      have hhead : (if (a.1 == k) = true then (k, v) else a) = a :=
        if_neg (by simpa using ha)
      rw [List.map_cons, hhead, List.find?_cons_of_neg _ (by simpa using ha), ih ht]

theorem find?_keyUpdate_ne {m : List (String × α)} {k k' : String} (h : k' ≠ k) (v : α) :
    (m.map (fun p => if p.1 == k then (k, v) else p)).find? (fun p => p.1 == k') =
      m.find? (fun p => p.1 == k') := by
  induction m with
  | nil => rfl
  | cons a t ih =>
    by_cases ha : a.1 = k
    · have hhead : (if (a.1 == k) = true then (k, v) else a) = (k, v) :=
        if_pos (by simpa using ha)
      have h1 : ((k : String) == k') = false := by
        simpa using (Ne.symm h)
      have h2 : (a.1 == k') = false := by
        rw [ha]; simpa using (Ne.symm h)
      rw [List.map_cons, hhead]
      simp only [List.find?, h1, h2]
      exact ih
    · have hhead : (if (a.1 == k) = true then (k, v) else a) = a :=
        if_neg (by simpa using ha)
      rw [List.map_cons, hhead]
      by_cases hak : a.1 = k'
      · have h1 : (a.1 == k') = true := by simpa using hak
        simp only [List.find?, h1]
      · have h1 : (a.1 == k') = false := by simpa using hak
        simp only [List.find?, h1]
        exact ih

theorem jsGet_jsSet_self (m : List (String × α)) (k : String) (v : α) :
    jsGet (jsSet m k v) k = some v := by
  by_cases h : k ∈ jsKeys m
  · rw [jsSet_of_mem h]
    unfold jsGet
    rw [find?_keyUpdate_self h]
    rfl
  · rw [jsSet_of_not_mem h]
    unfold jsGet
    rw [List.find?_append, find?_key_eq_none h]
    simp [List.find?]

theorem jsGet_jsSet_ne (m : List (String × α)) {k k' : String} (h : k' ≠ k) (v : α) :
    jsGet (jsSet m k v) k' = jsGet m k' := by
  by_cases hm : k ∈ jsKeys m
  · rw [jsSet_of_mem hm]
    unfold jsGet
    rw [find?_keyUpdate_ne h]
  · rw [jsSet_of_not_mem hm]
    unfold jsGet
    rw [List.find?_append]
    have hkk : ((k : String) == k') = false := by simpa using (Ne.symm h)
    have hone : ([((k : String), v)]).find? (fun p => p.1 == k') = none := by
      simp only [List.find?, hkk]
    rw [hone]
    cases hf : m.find? (fun p => p.1 == k') <;> rfl

theorem jsKeys_filter (m : List (String × α)) (p : String → Bool) :
    jsKeys (m.filter (fun q => p q.1)) = (jsKeys m).filter p := by
  induction m with
  | nil => rfl
  | cons a t ih =>
    by_cases h : p a.1 = true
    · simpa [jsKeys, List.filter_cons, h] using ih
    · rw [Bool.not_eq_true] at h
      simpa [jsKeys, List.filter_cons, h] using ih

theorem jsKeys_filter_not_contains (m : List (String × α)) (ids : List String) :
    jsKeys (m.filter (fun p => !(ids.contains p.1))) =
      (jsKeys m).filter (fun s => !(ids.contains s)) :=
  jsKeys_filter m (fun s => !(ids.contains s))

theorem jsKeys_jsDelete (m : List (String × α)) (k : String) :
    jsKeys (jsDelete m k) = (jsKeys m).filter (fun s => s != k) := by
  unfold jsDelete
  exact jsKeys_filter m (fun s => s != k)

theorem countP_congr' {l : List α} {p q : α → Bool} (h : ∀ a ∈ l, p a = q a) :
    l.countP p = l.countP q := by
  induction l with
  | nil => rfl
  | cons a t ih =>
    rw [List.countP_cons, List.countP_cons, h a (List.mem_cons_self a t),
      ih (fun b hb => h b (List.mem_cons_of_mem a hb))]

theorem countP_key_eq_one {m : List (String × α)} {k : String}
    (hn : (jsKeys m).Nodup) (h : k ∈ jsKeys m) :
    m.countP (fun p => p.1 == k) = 1 := by
  induction m with
  | nil => simp [jsKeys] at h
  | cons a t ih =>
    rw [jsKeys, List.map_cons, List.nodup_cons] at hn
    by_cases ha : a.1 = k
    · have hz : t.countP (fun p => p.1 == k) = 0 :=
        List.countP_eq_zero.mpr (fun p hp he =>
          hn.1 (ha ▸ mem_jsKeys.mpr ⟨p.2, mem_keyed hp (by simpa using he)⟩))
      rw [List.countP_cons, hz, if_pos (by simpa using ha)]
    · have ht : k ∈ jsKeys t := by
        rcases mem_jsKeys.mp h with ⟨w, hw⟩
        rcases List.mem_cons.mp hw with he | he
        · exact absurd (congrArg Prod.fst he.symm) ha
        · exact mem_jsKeys.mpr ⟨w, he⟩
      rw [List.countP_cons, if_neg (by simpa using ha), ih hn.2 ht, Nat.add_zero]

theorem countP_eq_one_unique {l : List α} {p : α → Bool} (h : l.countP p = 1)
    {a : α} (ha : a ∈ l) (hpa : p a = true) :
    ∀ b ∈ l, p b = true → b = a := by
  intro b hb hpb
  rw [List.countP_eq_length_filter] at h
  rcases List.length_eq_one.mp h with ⟨x, hx⟩
  have h1 : a ∈ l.filter p := List.mem_filter.mpr ⟨ha, hpa⟩
  have h2 : b ∈ l.filter p := List.mem_filter.mpr ⟨hb, hpb⟩
  rw [hx, List.mem_singleton] at h1 h2
  rw [h2, ← h1]

theorem deleteAll_eq_filter (ids : List String) (m : List (String × α)) :
    ids.foldl (fun acc taskId => jsDelete acc taskId) m =
      m.filter (fun p => !(ids.contains p.1)) := by
  induction ids generalizing m with
  | nil => simp
  | cons i rest ih =>
    rw [List.foldl_cons, ih, jsDelete, List.filter_filter]
    refine List.filter_congr (fun p _ => ?_)
    by_cases h1 : p.1 = i <;> by_cases h2 : rest.contains p.1 <;>
      simp [List.contains_cons, h1, h2]

/-! ## The cross-entity invariant and reachable states -/

/-- The fresh-id contract of `generateTaskId()`: the id is not a key of
`tasks` and appears in no column's `taskIds`. -/
def freshTaskId (b : Board) (tid : String) : Bool :=
  !((jsKeys b.tasks).contains tid) &&
    b.columns.all (fun p => !(p.2.taskIds.contains tid))

/-- The fresh-id contract of `generateColumnId()`. -/
def freshColumnId (b : Board) (cid : String) : Bool :=
  !((jsKeys b.columns).contains cid)

/-- The cross-entity board invariant: `columnOrder` is duplicate-free and
set-equal to the keys of `columns`; key sets are duplicate-free (objects
cannot repeat keys); every task id in `tasks` is contained in exactly one
column's `taskIds`. -/
def Inv (b : Board) : Prop :=
  b.columnOrder.Nodup ∧
  (∀ i ∈ b.columnOrder, i ∈ jsKeys b.columns) ∧
  (∀ i ∈ jsKeys b.columns, i ∈ b.columnOrder) ∧
  (jsKeys b.columns).Nodup ∧
  (jsKeys b.tasks).Nodup ∧
  (∀ t ∈ jsKeys b.tasks, b.columns.countP (fun q => q.2.taskIds.contains t) = 1)

instance (b : Board) : Decidable (Inv b) := by
  unfold Inv
  exact inferInstance

theorem reorderColumns_eq (b : Board) (now : Nat) (newColumnOrder : List String) :
    reorderColumns b now newColumnOrder =
      .ok { b with columnOrder := newColumnOrder, lastModified := now } := rfl

theorem clearBoard_eq (b : Board) (now : Nat) :
    clearBoard b now =
      .ok { tasks := [], columns := [], columnOrder := [], lastModified := now } := rfl

theorem importBoardTyped_eq (b : Board) (now : Nat) (d : Board) :
    importBoardTyped b now d = .ok { d with lastModified := now } := rfl

theorem inv_empty (now : Nat) :
    Inv { tasks := [], columns := [], columnOrder := [], lastModified := now } := by
  refine ⟨List.nodup_nil, ?_, ?_, ?_, ?_, ?_⟩ <;> simp [jsKeys]

theorem inv_reorderColumns {b b' : Board} {now : Nat} {newColumnOrder : List String}
    (hInv : Inv b) (hperm : newColumnOrder.Perm b.columnOrder)
    (h : reorderColumns b now newColumnOrder = .ok b') : Inv b' := by
  rw [reorderColumns_eq] at h
  cases h
  obtain ⟨h1, h2, h3, h4, h5, h6⟩ := hInv
  exact ⟨hperm.nodup_iff.mpr h1,
    fun i hi => h2 i (hperm.mem_iff.mp hi),
    fun i hi => hperm.mem_iff.mpr (h3 i hi),
    h4, h5, h6⟩

theorem inv_clearBoard {b b' : Board} {now : Nat}
    (h : clearBoard b now = .ok b') : Inv b' := by
  rw [clearBoard_eq] at h
  cases h
  exact inv_empty now

theorem inv_importBoardTyped {b b' d : Board} {now : Nat}
    (hInv : Inv d) (h : importBoardTyped b now d = .ok b') : Inv b' := by
  rw [importBoardTyped_eq] at h
  cases h
  exact hInv

/-! ## Counting and membership helpers for the preservation proofs -/

theorem contains_iff_mem {xs : List String} {a : String} :
    xs.contains a = true ↔ a ∈ xs := by
  simp

theorem contains_false_iff {xs : List String} {a : String} :
    xs.contains a = false ↔ a ∉ xs := by
  rw [← Bool.not_eq_true, not_iff_not]
  exact contains_iff_mem

theorem contains_append_single_self (xs : List String) (a : String) :
    (xs ++ [a]).contains a = true :=
  contains_iff_mem.mpr (List.mem_append.mpr (Or.inr (List.mem_singleton.mpr rfl)))

theorem contains_append_single_ne {xs : List String} {a t : String} (h : t ≠ a) :
    (xs ++ [a]).contains t = xs.contains t := by
  cases hc : xs.contains t with
  | true => exact contains_iff_mem.mpr (List.mem_append.mpr (Or.inl (contains_iff_mem.mp hc)))
  | false =>
    refine contains_false_iff.mpr (fun hm => ?_)
    rcases List.mem_append.mp hm with hm | hm
    · exact (contains_false_iff.mp hc) hm
    · exact h (List.mem_singleton.mp hm)

theorem contains_filter_self (xs : List String) (t : String) :
    (xs.filter (fun i => i != t)).contains t = false := by
  refine contains_false_iff.mpr (fun hm => ?_)
  have := (List.mem_filter.mp hm).2
  simp at this

theorem contains_filter_ne {xs : List String} {t' t : String} (h : t' ≠ t) :
    (xs.filter (fun i => i != t)).contains t' = xs.contains t' := by
  cases hc : xs.contains t' with
  | true =>
    exact contains_iff_mem.mpr
      (List.mem_filter.mpr ⟨contains_iff_mem.mp hc, by simpa using h⟩)
  | false =>
    refine contains_false_iff.mpr (fun hm => ?_)
    exact (contains_false_iff.mp hc) (List.mem_filter.mp hm).1

theorem mem_jsSet_elim {m : List (String × α)} {k : String} {v : α} {q : String × α}
    (hq : q ∈ jsSet m k v) : q = (k, v) ∨ (q ∈ m ∧ q.1 ≠ k) := by
  unfold jsSet at hq
  by_cases hm : m.any (fun p => p.1 == k) = true
  · rw [if_pos hm] at hq
    rcases List.mem_map.mp hq with ⟨p, hp, he⟩
    by_cases hpk : p.1 = k
    · left
      rw [← he, if_pos (by simpa using hpk)]
    · right
      rw [← he, if_neg (by simpa using hpk)]
      exact ⟨hp, hpk⟩
  · rw [if_neg hm] at hq
    rcases List.mem_append.mp hq with h | h
    · right
      refine ⟨h, fun he => ?_⟩
      exact hm (any_key_iff.mpr (mem_jsKeys.mpr ⟨q.2, mem_keyed h he⟩))
    · left
      exact List.mem_singleton.mp h

/-- Replacing an existing key with a value the predicate treats like the
old one does not change the count. -/
theorem countP_jsSet_congr {m : List (String × α)} (hn : (jsKeys m).Nodup)
    {k : String} {c v : α} (hg : jsGet m k = some c) {p : (String × α) → Bool}
    (hv : p (k, v) = p (k, c)) :
    (jsSet m k v).countP p = m.countP p := by
  rw [jsSet_of_mem (jsGet_mem_keys hg), List.countP_map]
  refine countP_congr' (fun q hq => ?_)
  show p (if q.1 == k then (k, v) else q) = p q
  by_cases hk : q.1 = k
  · have hqc : q.2 = c := jsGet_unique hn (mem_keyed hq hk) hg
    have hqe : q = (k, c) := by
      cases q with
      | mk a b =>
        cases hk
        cases hqc
        rfl
    rw [if_pos (by simpa using hk), hv, hqe]
  · rw [if_neg (by simpa using hk)]

/-- Replacing an existing key with a value satisfying the predicate, when
no other entry satisfies it, makes the count exactly one. -/
theorem countP_jsSet_key {m : List (String × α)} (hn : (jsKeys m).Nodup)
    {k : String} (hk : k ∈ jsKeys m) {v : α} {p : (String × α) → Bool}
    (hv : p (k, v) = true) (hz : ∀ q ∈ m, q.1 ≠ k → p q = false) :
    (jsSet m k v).countP p = 1 := by
  rw [jsSet_of_mem hk, List.countP_map]
  have hcongr : ∀ q ∈ m,
      (p ∘ (fun q => if q.1 == k then (k, v) else q)) q = (q.1 == k) := by
    intro q hq
    show p (if q.1 == k then (k, v) else q) = (q.1 == k)
    by_cases hqk : q.1 = k
    · rw [if_pos (by simpa using hqk), hv, eq_comm]
      simpa using hqk
    · rw [if_neg (by simpa using hqk), hz q hq hqk, eq_comm]
      simpa using hqk
  rw [countP_congr' hcongr]
  exact countP_key_eq_one hn hk

/-! ## Shapes of the successful operations -/

theorem updateTask_ok {b b' : Board} {now : Nat} {tid : String} {patch : TaskPatch}
    (h : updateTask b now tid patch = .ok b') :
    ∃ existingTask updatedTask,
      jsGet b.tasks tid = some existingTask ∧
      Task.update existingTask patch now = .ok updatedTask ∧
      b' = { b with tasks := jsSet b.tasks tid updatedTask, lastModified := now } := by
  unfold updateTask updateBoardData at h
  beta_reduce at h
  cases hg : jsGet b.tasks tid with
  | none =>
    rw [hg] at h
    simp [Except.map] at h
  | some existingTask =>
    rw [hg] at h
    cases hu : Task.update existingTask patch now with
    | error e =>
      simp [hu, Except.map] at h
    | ok updatedTask =>
      simp only [hu, Except.map, Except.ok.injEq] at h
      exact ⟨existingTask, updatedTask, rfl, hu, h.symm⟩

theorem updateColumn_ok {b b' : Board} {now : Nat} {cid : String} {patch : ColumnPatch}
    (h : updateColumn b now cid patch = .ok b') :
    ∃ existingColumn updatedColumn,
      jsGet b.columns cid = some existingColumn ∧
      Column.update existingColumn patch now = .ok updatedColumn ∧
      b' = { b with columns := jsSet b.columns cid updatedColumn, lastModified := now } := by
  unfold updateColumn updateBoardData at h
  beta_reduce at h
  cases hg : jsGet b.columns cid with
  | none =>
    rw [hg] at h
    simp [Except.map] at h
  | some existingColumn =>
    rw [hg] at h
    cases hu : Column.update existingColumn patch now with
    | error e =>
      simp [hu, Except.map] at h
    | ok updatedColumn =>
      simp only [hu, Except.map, Except.ok.injEq] at h
      exact ⟨existingColumn, updatedColumn, rfl, hu, h.symm⟩

theorem columnUpdate_shape {c uc : Column} {patch : ColumnPatch} {now : Nat}
    (h : Column.update c patch now = .ok uc) : uc = c.applyPatch patch now := by
  simp only [Column.update] at h
  split at h
  · exact ((Except.ok.injEq _ _).mp h).symm
  · cases h

/-! ## Invariant preservation, operation by operation -/

theorem inv_updateTask {b b' : Board} {now : Nat} {tid : String} {patch : TaskPatch}
    (hInv : Inv b) (h : updateTask b now tid patch = .ok b') : Inv b' := by
  obtain ⟨et, ut, hg, _, hb⟩ := updateTask_ok h
  subst hb
  obtain ⟨h1, h2, h3, h4, h5, h6⟩ := hInv
  have hk : tid ∈ jsKeys b.tasks := jsGet_mem_keys hg
  refine ⟨h1, h2, h3, h4, ?_, ?_⟩
  · rw [jsKeys_jsSet_of_mem hk]
    exact h5
  · intro t ht
    rw [jsKeys_jsSet_of_mem hk] at ht
    exact h6 t ht

theorem inv_updateColumn {b b' : Board} {now : Nat} {cid : String} {patch : ColumnPatch}
    (hInv : Inv b) (hp : patch.taskIds = none)
    (h : updateColumn b now cid patch = .ok b') : Inv b' := by
  obtain ⟨ec, uc, hg, hu, hb⟩ := updateColumn_ok h
  subst hb
  obtain ⟨h1, h2, h3, h4, h5, h6⟩ := hInv
  have hk : cid ∈ jsKeys b.columns := jsGet_mem_keys hg
  have hucids : uc.taskIds = ec.taskIds := by
    rw [columnUpdate_shape hu]
    unfold Column.applyPatch
    rw [hp]
    rfl
  refine ⟨h1, ?_, ?_, ?_, h5, ?_⟩
  · intro i hi
    rw [jsKeys_jsSet_of_mem hk]
    exact h2 i hi
  · intro i hi
    rw [jsKeys_jsSet_of_mem hk] at hi
    exact h3 i hi
  · rw [jsKeys_jsSet_of_mem hk]
    exact h4
  · intro t ht
    rw [countP_jsSet_congr h4 hg (by rw [hucids])]
    exact h6 t ht

theorem addTask_ok {b b' : Board} {now : Nat} {tid cid rid : String} {form : TaskForm}
    (h : addTask b now tid cid form = .ok (b', rid)) :
    ∃ column, jsGet b.columns cid = some column ∧ rid = tid ∧
      b' = { tasks := jsSet b.tasks tid
               (TaskFactory.createFromForm now { form with id := tid }),
             columns := jsSet b.columns cid
               { column with taskIds := column.taskIds ++ [tid], updatedAt := now },
             columnOrder := b.columnOrder,
             lastModified := now } := by
  simp only [addTask, updateBoardData] at h
  split at h
  · simp at h
  · cases hg : jsGet b.columns cid with
    | none => simp [hg, Except.map] at h
    | some column =>
      simp only [hg, Except.map, Except.ok.injEq, Prod.mk.injEq] at h
      exact ⟨column, rfl, h.2.symm, h.1.symm⟩

theorem addColumn_ok {b b' : Board} {now : Nat} {cid rid : String} {form : ColumnForm}
    (h : addColumn b now cid form = .ok (b', rid)) :
    rid = cid ∧
      b' = { tasks := b.tasks,
             columns := jsSet b.columns cid
               (ColumnFactory.createFromForm now
                 { form with id := cid, order := b.columnOrder.length }),
             columnOrder := b.columnOrder ++ [cid],
             lastModified := now } := by
  simp only [addColumn, updateBoardData] at h
  split at h
  · simp at h
  · simp only [Except.map, Except.ok.injEq, Prod.mk.injEq] at h
    exact ⟨h.2.symm, h.1.symm⟩

theorem deleteTask_ok {b b' : Board} {now : Nat} {tid : String}
    (h : deleteTask b now tid = .ok b') :
    ∃ scid scol,
      b.columns.find? (fun p => p.2.taskIds.contains tid) = some (scid, scol) ∧
      b' = { tasks := jsDelete b.tasks tid,
             columns := jsSet b.columns scid
               { scol with
                 taskIds := scol.taskIds.filter (fun i => i != tid),
                 updatedAt := now },
             columnOrder := b.columnOrder,
             lastModified := now } := by
  simp only [deleteTask, updateBoardData] at h
  cases hf : b.columns.find? (fun p => p.2.taskIds.contains tid) with
  | none =>
    rw [hf] at h
    simp only [Except.map] at h
    injection h
  | some p =>
    obtain ⟨scid, scol⟩ := p
    rw [hf] at h
    simp only [Except.map, Except.ok.injEq] at h
    exact ⟨scid, scol, rfl, h.symm⟩

theorem moveTask_ok {b b' : Board} {now : Nat} {tid tcid : String}
    (h : moveTask b now tid tcid = .ok b') :
    (∃ scol, b.columns.find? (fun p => p.2.taskIds.contains tid) = some (tcid, scol) ∧
      b' = { b with lastModified := now }) ∨
    (∃ scid scol tcol,
      b.columns.find? (fun p => p.2.taskIds.contains tid) = some (scid, scol) ∧
      scid ≠ tcid ∧ jsGet b.columns tcid = some tcol ∧
      b' = { tasks := b.tasks,
             columns := jsSet
               (jsSet b.columns scid
                 { scol with
                   taskIds := scol.taskIds.filter (fun i => i != tid),
                   updatedAt := now })
               tcid
               { tcol with taskIds := tcol.taskIds ++ [tid], updatedAt := now },
             columnOrder := b.columnOrder,
             lastModified := now }) := by
  simp only [moveTask, updateBoardData] at h
  cases hf : b.columns.find? (fun p => p.2.taskIds.contains tid) with
  | none =>
    rw [hf] at h
    simp only [Except.map] at h
    injection h
  | some p =>
    obtain ⟨scid, scol⟩ := p
    rw [hf] at h
    simp only [Except.map] at h
    by_cases hst : scid = tcid
    · left
      subst hst
      rw [if_pos (show (scid == scid) = true by simp)] at h
      simp only [Except.map, Except.ok.injEq] at h
      exact ⟨scol, rfl, h.symm⟩
    · right
      rw [if_neg (show ¬((scid == tcid) = true) by simpa using hst)] at h
      cases hgt : jsGet b.columns tcid with
      | none =>
        rw [hgt] at h
        simp only [Except.map] at h
        injection h
      | some tcol =>
        rw [hgt] at h
        simp only [Except.map, Except.ok.injEq] at h
        exact ⟨scid, scol, tcol, rfl, hst, rfl, h.symm⟩

theorem deleteColumn_ok {b b' : Board} {now : Nat} {cid : String}
    (h : deleteColumn b now cid = .ok b') :
    ∃ column, jsGet b.columns cid = some column ∧
      b' = { tasks := b.tasks.filter (fun p => !(column.taskIds.contains p.1)),
             columns := jsDelete b.columns cid,
             columnOrder := b.columnOrder.filter (fun i => i != cid),
             lastModified := now } := by
  simp only [deleteColumn, updateBoardData] at h
  cases hg : jsGet b.columns cid with
  | none => simp [hg] at h
  | some column =>
    simp only [hg, Except.map, Except.ok.injEq] at h
    rw [deleteAll_eq_filter] at h
    exact ⟨column, rfl, h.symm⟩

theorem inv_addTask {b b' : Board} {now : Nat} {tid cid rid : String} {form : TaskForm}
    (hInv : Inv b) (hfresh : freshTaskId b tid = true)
    (h : addTask b now tid cid form = .ok (b', rid)) : Inv b' := by
  obtain ⟨column, hg, _, hb⟩ := addTask_ok h
  subst hb
  obtain ⟨h1, h2, h3, h4, h5, h6⟩ := hInv
  unfold freshTaskId at hfresh
  rw [Bool.and_eq_true] at hfresh
  have hfT : tid ∉ jsKeys b.tasks := contains_false_iff.mp (by simpa using hfresh.1)
  have hfC : ∀ q ∈ b.columns, q.2.taskIds.contains tid = false := by
    intro q hq
    have := List.all_eq_true.mp hfresh.2 q hq
    simpa using this
  have hkc : cid ∈ jsKeys b.columns := jsGet_mem_keys hg
  refine ⟨h1, ?_, ?_, ?_, ?_, ?_⟩
  · intro i hi
    rw [jsKeys_jsSet_of_mem hkc]
    exact h2 i hi
  · intro i hi
    rw [jsKeys_jsSet_of_mem hkc] at hi
    exact h3 i hi
  · rw [jsKeys_jsSet_of_mem hkc]
    exact h4
  · rw [jsKeys_jsSet_of_not_mem hfT]
    rw [List.nodup_append]
    exact ⟨h5, List.nodup_singleton tid,
      fun x hx hx1 => hfT ((List.mem_singleton.mp hx1) ▸ hx)⟩
  · intro t ht
    rw [jsKeys_jsSet_of_not_mem hfT] at ht
    rcases List.mem_append.mp ht with ht | ht
    · have htne : t ≠ tid := fun he => hfT (he ▸ ht)
      rw [countP_jsSet_congr h4 hg (contains_append_single_ne htne)]
      exact h6 t ht
    · rw [List.mem_singleton] at ht
      subst ht
      exact countP_jsSet_key h4 hkc (contains_append_single_self column.taskIds t)
        (fun q hq _ => hfC q hq)

theorem inv_addColumn {b b' : Board} {now : Nat} {cid rid : String} {form : ColumnForm}
    (hInv : Inv b) (hfresh : freshColumnId b cid = true)
    (h : addColumn b now cid form = .ok (b', rid)) : Inv b' := by
  obtain ⟨_, hb⟩ := addColumn_ok h
  subst hb
  obtain ⟨h1, h2, h3, h4, h5, h6⟩ := hInv
  have hfc : cid ∉ jsKeys b.columns :=
    contains_false_iff.mp (by simpa [freshColumnId] using hfresh)
  have hfo : cid ∉ b.columnOrder := fun hc => hfc (h2 cid hc)
  refine ⟨?_, ?_, ?_, ?_, h5, ?_⟩
  · rw [List.nodup_append]
    exact ⟨h1, List.nodup_singleton cid,
      fun x hx hx1 => hfo ((List.mem_singleton.mp hx1) ▸ hx)⟩
  · intro i hi
    rw [jsKeys_jsSet_of_not_mem hfc]
    rcases List.mem_append.mp hi with hi | hi
    · exact List.mem_append.mpr (Or.inl (h2 i hi))
    · exact List.mem_append.mpr (Or.inr hi)
  · intro i hi
    rw [jsKeys_jsSet_of_not_mem hfc] at hi
    rcases List.mem_append.mp hi with hi | hi
    · exact List.mem_append.mpr (Or.inl (h3 i hi))
    · exact List.mem_append.mpr (Or.inr hi)
  · rw [jsKeys_jsSet_of_not_mem hfc, List.nodup_append]
    exact ⟨h4, List.nodup_singleton cid,
      fun x hx hx1 => hfc ((List.mem_singleton.mp hx1) ▸ hx)⟩
  · intro t ht
    rw [jsSet_of_not_mem hfc, List.countP_append]
    have hz : ([(cid, ColumnFactory.createFromForm now
        { form with id := cid, order := b.columnOrder.length })]).countP
          (fun q => q.2.taskIds.contains t) = 0 := by
      refine List.countP_eq_zero.mpr (fun q hq => ?_)
      rw [List.mem_singleton] at hq
      subst hq
      simp [ColumnFactory.createFromForm]
    rw [hz, Nat.add_zero]
    exact h6 t ht

theorem inv_deleteTask {b b' : Board} {now : Nat} {tid : String}
    (hInv : Inv b) (h : deleteTask b now tid = .ok b') : Inv b' := by
  obtain ⟨scid, scol, hf, hb⟩ := deleteTask_ok h
  subst hb
  obtain ⟨h1, h2, h3, h4, h5, h6⟩ := hInv
  have hmem : (scid, scol) ∈ b.columns := List.mem_of_find?_eq_some hf
  have hgs : jsGet b.columns scid = some scol := jsGet_eq_of_mem h4 hmem
  have hks : scid ∈ jsKeys b.columns := jsGet_mem_keys hgs
  refine ⟨h1, ?_, ?_, ?_, ?_, ?_⟩
  · intro i hi
    rw [jsKeys_jsSet_of_mem hks]
    exact h2 i hi
  · intro i hi
    rw [jsKeys_jsSet_of_mem hks] at hi
    exact h3 i hi
  · rw [jsKeys_jsSet_of_mem hks]
    exact h4
  · rw [jsKeys_jsDelete]
    exact h5.filter _
  · intro t ht
    rw [jsKeys_jsDelete, List.mem_filter] at ht
    have htid : t ≠ tid := by simpa using ht.2
    rw [countP_jsSet_congr h4 hgs (contains_filter_ne htid)]
    exact h6 t ht.1

theorem inv_moveTask {b b' : Board} {now : Nat} {tid tcid : String}
    (hInv : Inv b) (h : moveTask b now tid tcid = .ok b') : Inv b' := by
  rcases moveTask_ok h with ⟨scol, hf, hb⟩ | ⟨scid, scol, tcol, hf, hst, hgt, hb⟩
  · subst hb
    exact hInv
  · subst hb
    obtain ⟨h1, h2, h3, h4, h5, h6⟩ := hInv
    have hmem_s : (scid, scol) ∈ b.columns := List.mem_of_find?_eq_some hf
    have hpred_s : scol.taskIds.contains tid = true := by
      simpa using List.find?_some hf
    have hgs : jsGet b.columns scid = some scol := jsGet_eq_of_mem h4 hmem_s
    have hks : scid ∈ jsKeys b.columns := jsGet_mem_keys hgs
    have hkt : tcid ∈ jsKeys b.columns := jsGet_mem_keys hgt
    have hkeys1 : jsKeys (jsSet b.columns scid
        { scol with
          taskIds := scol.taskIds.filter (fun i => i != tid),
          updatedAt := now }) = jsKeys b.columns :=
      jsKeys_jsSet_of_mem hks _
    have hn1 : (jsKeys (jsSet b.columns scid
        { scol with
          taskIds := scol.taskIds.filter (fun i => i != tid),
          updatedAt := now })).Nodup := by
      rw [hkeys1]
      exact h4
    have hkt1 : tcid ∈ jsKeys (jsSet b.columns scid
        { scol with
          taskIds := scol.taskIds.filter (fun i => i != tid),
          updatedAt := now }) := hkeys1.symm ▸ hkt
    have hg1t : jsGet (jsSet b.columns scid
        { scol with
          taskIds := scol.taskIds.filter (fun i => i != tid),
          updatedAt := now }) tcid = some tcol := by
      rw [jsGet_jsSet_ne _ (Ne.symm hst) _]
      exact hgt
    have hkeys2 : jsKeys (jsSet (jsSet b.columns scid
        { scol with
          taskIds := scol.taskIds.filter (fun i => i != tid),
          updatedAt := now }) tcid
        { tcol with taskIds := tcol.taskIds ++ [tid], updatedAt := now }) =
        jsKeys b.columns := by
      rw [jsKeys_jsSet_of_mem hkt1, hkeys1]
    refine ⟨h1, ?_, ?_, ?_, h5, ?_⟩
    · intro i hi
      rw [hkeys2]
      exact h2 i hi
    · intro i hi
      rw [hkeys2] at hi
      exact h3 i hi
    · rw [hkeys2]
      exact h4
    · intro t ht
      by_cases httid : t = tid
      · subst httid
        refine countP_jsSet_key hn1 hkt1 (contains_append_single_self tcol.taskIds t) ?_
        intro q hq hqne
        rcases mem_jsSet_elim hq with hq | ⟨hqm, hqs⟩
        · rw [hq]
          exact contains_filter_self scol.taskIds t
        · by_contra hc
          rw [Bool.not_eq_false] at hc
          have := countP_eq_one_unique (h6 t ht) hmem_s hpred_s q hqm hc
          exact hqs (congrArg Prod.fst this)
      · rw [countP_jsSet_congr hn1 hg1t (contains_append_single_ne httid),
          countP_jsSet_congr h4 hgs (contains_filter_ne httid)]
        exact h6 t ht

theorem inv_deleteColumn {b b' : Board} {now : Nat} {cid : String}
    (hInv : Inv b) (h : deleteColumn b now cid = .ok b') : Inv b' := by
  obtain ⟨column, hg, hb⟩ := deleteColumn_ok h
  subst hb
  obtain ⟨h1, h2, h3, h4, h5, h6⟩ := hInv
  refine ⟨h1.filter _, ?_, ?_, ?_, ?_, ?_⟩
  · intro i hi
    rw [List.mem_filter] at hi
    rw [jsKeys_jsDelete, List.mem_filter]
    exact ⟨h2 i hi.1, hi.2⟩
  · intro i hi
    rw [jsKeys_jsDelete, List.mem_filter] at hi
    rw [List.mem_filter]
    exact ⟨h3 i hi.1, hi.2⟩
  · rw [jsKeys_jsDelete]
    exact h4.filter _
  · show (jsKeys (b.tasks.filter (fun p => !(column.taskIds.contains p.1)))).Nodup
    rw [jsKeys_filter_not_contains]
    exact h5.filter _
  · intro t ht
    replace ht : t ∈ jsKeys (b.tasks.filter (fun p => !(column.taskIds.contains p.1))) := ht
    show (jsDelete b.columns cid).countP (fun q => q.2.taskIds.contains t) = 1
    rw [jsKeys_filter_not_contains, List.mem_filter] at ht
    have htc : column.taskIds.contains t = false := by simpa using ht.2
    unfold jsDelete
    rw [List.countP_filter]
    have hcongr : ∀ q ∈ b.columns,
        ((q.2.taskIds.contains t) && (q.1 != cid)) = q.2.taskIds.contains t := by
      intro q hq
      by_cases hqc : q.1 = cid
      · have hqv : q.2 = column := jsGet_unique h4 (mem_keyed hq hqc) hg
        rw [hqv, htc, Bool.false_and]
      · have : (q.1 != cid) = true := by simpa using hqc
        rw [this, Bool.and_true]
    rw [countP_congr' hcongr]
    exact h6 t ht.1

/-- Board states reachable from the empty board through the store's
operations.  The side conditions record what each step needs beyond the
code itself: generated ids are fresh (the id-generator contract),
updateColumn patches do not touch `taskIds`, reorderColumns receives a
permutation of the current order, and imported snapshots themselves
satisfy the invariant — without the last three restrictions the invariant
is refutable, since the code does not validate those inputs. -/
inductive Reach : Board → Prop where
  | empty (now : Nat) :
      Reach { tasks := [], columns := [], columnOrder := [], lastModified := now }
  | stepAddTask {b b' : Board} {now : Nat} {tid cid rid : String} {form : TaskForm} :
      Reach b → freshTaskId b tid = true →
      addTask b now tid cid form = .ok (b', rid) → Reach b'
  | stepUpdateTask {b b' : Board} {now : Nat} {tid : String} {patch : TaskPatch} :
      Reach b → updateTask b now tid patch = .ok b' → Reach b'
  | stepDeleteTask {b b' : Board} {now : Nat} {tid : String} :
      Reach b → deleteTask b now tid = .ok b' → Reach b'
  | stepMoveTask {b b' : Board} {now : Nat} {tid tcid : String} :
      Reach b → moveTask b now tid tcid = .ok b' → Reach b'
  | stepAddColumn {b b' : Board} {now : Nat} {cid rid : String} {form : ColumnForm} :
      Reach b → freshColumnId b cid = true →
      addColumn b now cid form = .ok (b', rid) → Reach b'
  | stepUpdateColumn {b b' : Board} {now : Nat} {cid : String} {patch : ColumnPatch} :
      Reach b → patch.taskIds = none →
      updateColumn b now cid patch = .ok b' → Reach b'
  | stepDeleteColumn {b b' : Board} {now : Nat} {cid : String} :
      Reach b → deleteColumn b now cid = .ok b' → Reach b'
  | stepReorderColumns {b b' : Board} {now : Nat} {newColumnOrder : List String} :
      Reach b → newColumnOrder.Perm b.columnOrder →
      reorderColumns b now newColumnOrder = .ok b' → Reach b'
  | stepClear {b b' : Board} {now : Nat} :
      Reach b → clearBoard b now = .ok b' → Reach b'
  | stepImport {b b' d : Board} {now : Nat} :
      Reach b → Inv d → importBoardTyped b now d = .ok b' → Reach b'

/-! ## Claim C1 -/

/-- Claim C1 (amended): every board state reachable from the empty board
by the store's operations — with generated ids fresh, updateColumn
patches not touching `taskIds`, reorderColumns restricted to permutations
of the current `columnOrder`, and imported snapshots that themselves
satisfy the invariant — has a duplicate-free `columnOrder` set-equal to
the key set of `columns`, duplicate-free object keys, and every task id
in `tasks` contained in exactly one column's `taskIds`.  (The unrestricted
claim is refuted by `C1_cex_reorder_breaks_invariant`.) -/
theorem C1_board_invariant {b : Board} (h : Reach b) : Inv b := by
  induction h with
  | empty now => exact inv_empty now
  | stepAddTask _ hfresh hop ih => exact inv_addTask ih hfresh hop
  | stepUpdateTask _ hop ih => exact inv_updateTask ih hop
  | stepDeleteTask _ hop ih => exact inv_deleteTask ih hop
  | stepMoveTask _ hop ih => exact inv_moveTask ih hop
  | stepAddColumn _ hfresh hop ih => exact inv_addColumn ih hfresh hop
  | stepUpdateColumn _ hpatch hop ih => exact inv_updateColumn ih hpatch hop
  | stepDeleteColumn _ hop ih => exact inv_deleteColumn ih hop
  | stepReorderColumns _ hperm hop ih => exact inv_reorderColumns ih hperm hop
  | stepClear _ hop _ => exact inv_clearBoard hop
  | stepImport _ hinvd hop _ => exact inv_importBoardTyped hinvd hop

/-- Claim C1, as stated, is false on the code: from the empty board, one
`reorderColumns` call with a list that is not a permutation of the
current `columnOrder` succeeds and yields a reachable state whose
`columnOrder` mentions a column id that does not exist. -/
theorem C1_cex_reorder_breaks_invariant :
    reorderColumns { tasks := [], columns := [], columnOrder := [], lastModified := 0 } 1
        ["column-1"] =
      .ok { tasks := [], columns := [], columnOrder := ["column-1"], lastModified := 1 } ∧
    ¬ Inv { tasks := [], columns := [], columnOrder := ["column-1"], lastModified := 1 } :=
  ⟨rfl, by decide⟩

def boardEmptyAt0 : Board :=
  { tasks := [], columns := [], columnOrder := [], lastModified := 0 }

def boardOneColumn : Board :=
  { tasks := [],
    columns := [("column-1",
      { id := "", title := "To Do", color := "bg-gray-100",
        taskIds := [], createdAt := 1, updatedAt := 1, order := 0 })],
    columnOrder := ["column-1"],
    lastModified := 1 }

def boardOneTask : Board :=
  { tasks := [("task-1",
      { id := "", title := "Write spec", description := "",
        priority := "medium", assignee := "", dueDate := "",
        createdAt := 2, updatedAt := 2 })],
    columns := [("column-1",
      { id := "", title := "To Do", color := "bg-gray-100",
        taskIds := ["task-1"], createdAt := 1, updatedAt := 2, order := 0 })],
    columnOrder := ["column-1"],
    lastModified := 2 }

/-- Witness: the invariant theorem applied to a concrete two-step run
(addColumn then addTask from the empty board). -/
theorem C1_board_invariant_witness : Inv boardOneTask :=
  C1_board_invariant
    (@Reach.stepAddTask boardOneColumn boardOneTask 2 "task-1" "column-1" "task-1"
      { title := "Write spec" }
      (@Reach.stepAddColumn boardEmptyAt0 boardOneColumn 1 "column-1" "column-1"
        { title := "To Do", color := "bg-gray-100" }
        (Reach.empty 0) (by decide) rfl)
      (by decide) rfl)

/-! ## Claim C2 -/

/-- Claim C2 (amended): `reorderColumns` performs no validation at all:
for every board, timestamp and argument list — permutation or not — it
unconditionally replaces `columnOrder` with the argument verbatim, stamps
`lastModified`, and never fails. -/
theorem C2_reorderColumns_replaces_unconditionally
    (b : Board) (now : Nat) (newColumnOrder : List String) :
    reorderColumns b now newColumnOrder =
      .ok { b with columnOrder := newColumnOrder, lastModified := now } := rfl

/-- Claim C2, as stated, is false on the code: called with the empty list
on a board with one column — not a permutation of the current order — the
operation does not fail and `columnOrder` is changed. -/
theorem C2_cex_no_validation :
    reorderColumns
        { tasks := [],
          columns := [("column-1",
            { id := "", title := "To Do", color := "bg-gray-100",
              taskIds := [], createdAt := 0, updatedAt := 0, order := 0 })],
          columnOrder := ["column-1"], lastModified := 0 } 1 [] =
      .ok { tasks := [],
            columns := [("column-1",
              { id := "", title := "To Do", color := "bg-gray-100",
                taskIds := [], createdAt := 0, updatedAt := 0, order := 0 })],
            columnOrder := [], lastModified := 1 } ∧
    ([] : List String) ≠ ["column-1"] :=
  ⟨rfl, by decide⟩

/-! ## Claim C3 -/

/-- Claim C3 (amended): the store-side import gate checks only that the
payload, its `tasks` field and its `columns` field are truthy; when those
checks pass it replaces the whole board with the spread of the payload
plus a fresh `lastModified` stamp — even if `columnOrder` is missing or
mistyped — and when any check fails it throws, leaving the prior board to
the caller.  (The original claim is refuted by
`C3_cex_missing_columnOrder_accepted`.) -/
theorem C3_import_gate (now : Nat) (d : JVal) :
    importBoardData now d =
      (if truthy d && truthy (fieldOf d "tasks") && truthy (fieldOf d "columns") then
        .ok (.jobj (jsSet (spreadFields d) "lastModified" (.jnum (now : Int))))
      else .error "Invalid import data structure") := by
  unfold importBoardData
  by_cases h1 : truthy d <;> by_cases h2 : truthy (fieldOf d "tasks") <;>
    by_cases h3 : truthy (fieldOf d "columns") <;> simp [h1, h2, h3]

/-- Claim C3, as stated, is false on the code: a payload carrying `tasks`
and `columns` but no `columnOrder` at all passes the store's check and
replaces the board, where the claim demands a ValidationError and an
unchanged board. -/
theorem C3_cex_missing_columnOrder_accepted :
    importBoardData 7 (.jobj [("tasks", .jobj []), ("columns", .jobj [])]) =
      .ok (.jobj [("tasks", .jobj []), ("columns", .jobj []),
                  ("lastModified", .jnum 7)]) := rfl

/-! ## Claim C4 -/

/-- Claim C4: at a concrete failing input — a valid one-column board, a
fresh generated id "task-1" and a valid title — addTask succeeds, returns
the generated id, stores the task under that key and appends the key to
the column, but the stored task's `id` field is the empty string:
TaskFactory.createFromForm drops the `id` the store passes it, so the
claim's (and §3's) requirement `id` = returned id ≠ "" fails. -/
theorem C4_addTask_stores_empty_id :
    addTask boardOneColumn 2 "task-1" "column-1" { title := "Write spec" } =
      .ok (boardOneTask, "task-1") ∧
    (jsGet boardOneTask.tasks "task-1").map Task.id = some "" ∧
    "" ≠ "task-1" :=
  ⟨rfl, rfl, by decide⟩

/-! ## Claim C5 -/

/-- Claim C5 (amended): moving a task to the column that already owns it
(the first column whose `taskIds` contains it) leaves `tasks`, `columns`
and `columnOrder` unchanged, but `updateBoardData` stamps `lastModified`
unconditionally, so the returned snapshot equals the input board with
only `lastModified` set to the operation time.  (The claim's
"deep-equal including lastModified" is refuted by
`C5_cex_lastModified_stamped`.) -/
theorem C5_moveTask_same_column {b : Board} {now : Nat} {tid : String}
    {p : String × Column}
    (hf : b.columns.find? (fun q => q.2.taskIds.contains tid) = some p) :
    moveTask b now tid p.1 = .ok { b with lastModified := now } := by
  obtain ⟨scid, scol⟩ := p
  simp only [moveTask, updateBoardData]
  rw [hf]
  simp only [Except.map]
  rw [if_pos (show (scid == scid) = true by simp)]

/-- Claim C5, as stated, is false on the code: a same-column move returns
a snapshot whose `lastModified` differs from the input board's. -/
theorem C5_cex_lastModified_stamped :
    moveTask boardOneTask 5 "task-1" "column-1" =
      .ok { boardOneTask with lastModified := 5 } ∧
    ({ boardOneTask with lastModified := 5 } : Board) ≠ boardOneTask :=
  ⟨rfl, by decide⟩

/-- Witness: the amended same-column no-op applied to a concrete board. -/
theorem C5_moveTask_same_column_witness :
    moveTask boardOneTask 9 "task-1" "column-1" =
      .ok { boardOneTask with lastModified := 9 } :=
  @C5_moveTask_same_column boardOneTask 9 "task-1"
    ("column-1",
      { id := "", title := "To Do", color := "bg-gray-100",
        taskIds := ["task-1"], createdAt := 1, updatedAt := 2, order := 0 })
    rfl

/-! ## Claim C7 -/

def boardTwoColumns : Board :=
  { tasks := [],
    columns := [("column-1",
      { id := "", title := "To Do", color := "bg-gray-100",
        taskIds := [], createdAt := 1, updatedAt := 1, order := 0 }),
      ("column-2",
      { id := "", title := "Doing", color := "bg-blue-50",
        taskIds := [], createdAt := 9, updatedAt := 9, order := 0 })],
    columnOrder := ["column-1", "column-2"],
    lastModified := 9 }

/-- Claim C7: at a concrete failing input — a board that already has one
column, so `columnOrder.length` is 1 at call time — addColumn succeeds,
appends the generated id to `columnOrder`, but stores a column whose
`order` field is 0 (and whose `id` field is empty):
ColumnFactory.createFromForm drops the `id` and `order` the store passes
it, so the claim's `order = columnOrder.length` fails. -/
theorem C7_addColumn_order_zero :
    addColumn boardOneColumn 9 "column-2" { title := "Doing", color := "bg-blue-50" } =
      .ok (boardTwoColumns, "column-2") ∧
    (jsGet boardTwoColumns.columns "column-2").map Column.order = some 0 ∧
    boardOneColumn.columnOrder.length = 1 ∧ (0 : Nat) ≠ 1 :=
  ⟨rfl, rfl, rfl, by decide⟩

/-! ## Claim C6 -/

/-- The predicate getBoardStats actually counts: the due date is set,
parses, and its raw timestamp is strictly before the current instant —
full-timestamp comparison, not the day-granularity comparison of
`Task.isOverdue`. -/
def overdueAtInstant (now : Nat) (task : Task) : Bool :=
  task.dueDate != "" &&
    (match parseDate task.dueDate with
     | none => false
     | some d => decide (d < now))

/-- Claim C6 (amended): the overdue count reported by getBoardStats is
the number of tasks whose parsed `dueDate` timestamp is strictly before
the current instant (`new Date(task.dueDate) < new Date()`), which is not
the day-granularity `isOverdue()` count the claim names; being a pure
function of the snapshot, getBoardStats mutates nothing.  (The original
claim is refuted by `C6_cex_day_granularity`.) -/
theorem C6_stats_overdue_is_timestamp_count (b : Board) (now : Nat) :
    (getBoardStats b now).overdueTasks =
      ((jsValues b.tasks).filter (overdueAtInstant now)).length := by
  unfold getBoardStats
  show ((jsValues b.tasks).filter _).length = _
  congr 1
  refine List.filter_congr (fun task _ => ?_)
  unfold overdueAtInstant
  by_cases h : task.dueDate = ""
  · simp [h]
  · have hne : (task.dueDate == "") = false := by simpa using h
    have hne2 : (task.dueDate != "") = true := by simpa using h
    rw [if_neg (by simp [hne]), hne2, Bool.true_and]

def c6Task : Task :=
  { id := "", title := "Ship", description := "", priority := "medium",
    assignee := "", dueDate := "1970-01-02", createdAt := 0, updatedAt := 0 }

def c6Board : Board :=
  { tasks := [("task-1", c6Task)],
    columns := [("column-1",
      { id := "", title := "To Do", color := "bg-gray-100",
        taskIds := ["task-1"], createdAt := 0, updatedAt := 0, order := 0 })],
    columnOrder := ["column-1"],
    lastModified := 0 }

/-- Claim C6, as stated, is false on the code: with one task due on
1970-01-02 and the clock one millisecond past that day's midnight, the
stats report 1 overdue task while `isOverdue()` — which strips
time-of-day and compares calendar days — is true for 0 tasks. -/
theorem C6_cex_day_granularity :
    (getBoardStats c6Board 86400001).overdueTasks = 1 ∧
    ((jsValues c6Board.tasks).filter (fun task => task.isOverdue 86400001)).length = 0 ∧
    (1 : Nat) ≠ 0 :=
  ⟨rfl, rfl, by decide⟩

/-! ## Claim C8 -/

/-- The list transformation ColumnType.moveTask performs on `taskIds`:
remove the first occurrence of the id, then splice it back in at the
normalized start index (negative indices count back from the end, clamped
at 0; nonnegative indices are clamped to the remaining length). -/
def spliceMove (xs : List String) (taskId : String) (newIndex : Int) : List String :=
  let currentIndex := xs.findIdx (fun i => i == taskId)
  let removed := xs.take currentIndex ++ xs.drop (currentIndex + 1)
  let i := spliceStart removed.length newIndex
  removed.take i ++ taskId :: removed.drop i

theorem spliceStart_le (len : Nat) (newIndex : Int) : spliceStart len newIndex ≤ len := by
  unfold spliceStart
  split
  · omega
  · exact min_le_right _ _

theorem spliceMove_length {xs : List String} {taskId : String}
    (h : xs.contains taskId = true) (newIndex : Int) :
    (spliceMove xs taskId newIndex).length = xs.length := by
  unfold spliceMove
  have hidx : xs.findIdx (fun i => i == taskId) < xs.length :=
    List.findIdx_lt_length.mpr ⟨taskId, contains_iff_mem.mp h, by simp⟩
  have hrem : (xs.take (xs.findIdx (fun i => i == taskId)) ++
      xs.drop (xs.findIdx (fun i => i == taskId) + 1)).length = xs.length - 1 := by
    rw [List.length_append, List.length_take, List.length_drop]
    omega
  have hle := spliceStart_le (xs.take (xs.findIdx (fun i => i == taskId)) ++
      xs.drop (xs.findIdx (fun i => i == taskId) + 1)).length newIndex
  rw [List.length_append, List.length_take, List.length_cons, List.length_drop]
  rw [hrem] at hle ⊢
  omega

/-- The column re-validation inside `update` depends on `taskIds` only
through its length. -/
theorem column_validate_taskIds_length {c : Column} {xs : List String} {n : Nat}
    (hlen : xs.length = c.taskIds.length) :
    ({ c with taskIds := xs, updatedAt := n } : Column).validate.isValid =
      c.validate.isValid := by
  unfold Column.validate
  rw [show ({ c with taskIds := xs, updatedAt := n } : Column).taskIds = xs from rfl,
    hlen]

/-- Claim C8 (amended): ColumnType.moveTask fails with the not-found
error exactly when the id is absent from the column's `taskIds`; when the
id is present (and the column's own fields re-validate, which the length
-preserving move guarantees whenever the column was valid) it removes the
id at its current index and reinserts it at the splice-normalized index —
`min(newIndex, remaining length)` for nonnegative `newIndex`, and
`max(remaining length + newIndex, 0)` for negative `newIndex`, counting
back from the end rather than clamping to 0 — preserving the relative
order of all other ids and stamping `updatedAt`.  (The "[0, length]
clamp" of the original claim is refuted by `C8_cex_negative_index`.) -/
theorem C8_moveTaskWithinColumn (c : Column) (now : Nat) (taskId : String)
    (newIndex : Int) :
    (c.taskIds.contains taskId = false →
      Column.moveTask c now taskId newIndex = .error "Task not found in column") ∧
    (c.taskIds.contains taskId = true → c.validate.isValid = true →
      Column.moveTask c now taskId newIndex =
        .ok { c with
              taskIds := spliceMove c.taskIds taskId newIndex,
              updatedAt := now }) := by
  constructor
  · intro hc
    unfold Column.moveTask
    rw [if_pos (by rw [hc]; rfl)]
  · intro hc hv
    unfold Column.moveTask
    rw [if_neg (by rw [hc]; simp)]
    show Column.update c { taskIds := some (spliceMove c.taskIds taskId newIndex) } now = _
    have happ : c.applyPatch { taskIds := some (spliceMove c.taskIds taskId newIndex) } now =
        { c with taskIds := spliceMove c.taskIds taskId newIndex, updatedAt := now } := rfl
    have hval : ({ c with
        taskIds := spliceMove c.taskIds taskId newIndex,
        updatedAt := now } : Column).validate.isValid = true := by
      rw [column_validate_taskIds_length (spliceMove_length hc newIndex)]
      exact hv
    simp only [Column.update, happ, hval, if_true]

def c8Column : Column :=
  { id := "", title := "To Do", color := "bg-gray-100",
    taskIds := ["a", "b", "c"], createdAt := 0, updatedAt := 0, order := 0 }

/-- Claim C8, as stated, is false on the code: moving "a" to newIndex -1
— which a clamp into [0, length] would send to index 0, leaving the order
unchanged — instead lands it before the last element, because a negative
splice start counts back from the end. -/
theorem C8_cex_negative_index :
    Column.moveTask c8Column 5 "a" (-1) =
      .ok { c8Column with taskIds := ["b", "a", "c"], updatedAt := 5 } ∧
    ["b", "a", "c"] ≠ ["a", "b", "c"] :=
  ⟨rfl, by decide⟩

/-- Witness: the amended move applied to a concrete column. -/
theorem C8_moveTaskWithinColumn_witness :
    Column.moveTask c8Column 5 "b" 0 =
      .ok { c8Column with
            taskIds := spliceMove c8Column.taskIds "b" 0,
            updatedAt := 5 } :=
  (C8_moveTaskWithinColumn c8Column 5 "b" 0).2 (by decide) (by decide)

/-! ## Claim C9 -/

theorem getFieldE_of_truthy {v : JVal} (h : truthy v = true) (k : String) :
    getFieldE v k = .ok (fieldOf v k) := by
  cases v with
  | jnull => simp [truthy] at h
  | jundefined => simp [truthy] at h
  | jbool b => rfl
  | jnum n => rfl
  | jstr s => rfl
  | jarr xs => rfl
  | jobj fs => rfl

theorem fieldOf_of_getFieldE_error {v : JVal} {k m : String}
    (h : getFieldE v k = .error m) : fieldOf v k = .jundefined := by
  cases v with
  | jnull => rfl
  | jundefined => rfl
  | jbool b => rfl
  | jnum n => rfl
  | jstr s => rfl
  | jarr xs => rfl
  | jobj fs => simp [getFieldE] at h

theorem getFieldE_ok_eq {v : JVal} {k : String} {d : JVal}
    (h : getFieldE v k = .ok d) : d = fieldOf v k := by
  cases v with
  | jnull => simp [getFieldE] at h
  | jundefined => simp [getFieldE] at h
  | jbool b =>
    have := h
    simp [getFieldE] at this
    exact this.symm
  | jnum n =>
    have := h
    simp [getFieldE] at this
    exact this.symm
  | jstr str =>
    have := h
    simp [getFieldE] at this
    exact this.symm
  | jarr xs =>
    have := h
    simp [getFieldE] at this
    exact this.symm
  | jobj fs =>
    have := h
    simp [getFieldE] at this
    exact this.symm

/-- Normal form of importFromJSON: a parse failure or a throwing
`importData.data` access lands in the catch; otherwise the three
truthiness checks decide between the failure record and the success
record carrying the inner data. -/
theorem importFromJSON_eq (parsed : Except String JVal) :
    importFromJSON parsed =
      (match parsed with
      | .error m =>
        { success := false, error := some ("Invalid JSON format: " ++ m) }
      | .ok v =>
        match getFieldE v "data" with
        | .error m =>
          { success := false, error := some ("Invalid JSON format: " ++ m) }
        | .ok d1 =>
          if truthy d1 && truthy (fieldOf d1 "tasks") &&
              truthy (fieldOf d1 "columns") then
            { success := true, data := d1, version := fieldOf v "version",
              exportedAt := fieldOf v "exportedAt" }
          else
            { success := false,
              error := some "Invalid file format: Missing required data structure" }) := by
  cases parsed with
  | error m => rfl
  | ok v =>
    cases hd : getFieldE v "data" with
    | error m => simp [importFromJSON, hd]
    | ok d1 =>
      by_cases h1 : truthy d1 = true
      · by_cases h2 : truthy (fieldOf d1 "tasks") = true
        · by_cases h3 : truthy (fieldOf d1 "columns") = true
          · simp [importFromJSON, hd, getFieldE_of_truthy h1, h1, h2, h3]
          · simp [importFromJSON, hd, getFieldE_of_truthy h1, h1, h2, h3]
        · simp [importFromJSON, hd, getFieldE_of_truthy h1, h1, h2]
      · simp [importFromJSON, hd, h1]

/-- The spec-side acceptance condition: the parsed envelope carries a
truthy `data` field whose `tasks` and `columns` members are truthy (an
object-valued mapping is always truthy, even when empty; absence, null
and other falsy values count as missing). -/
def envelopeHasBoardData (v : JVal) : Bool :=
  truthy (fieldOf v "data") && truthy (fieldOf (fieldOf v "data") "tasks") &&
    truthy (fieldOf (fieldOf v "data") "columns")

/-- Claim C9: importFromJSON succeeds exactly when the text parsed as
JSON and the envelope carries `data` with both `tasks` and `columns`; on
success it returns the envelope's inner `data` unmodified; on failure it
returns a descriptive error message.  It is a pure function of the parsed
input — no board state is involved, so the board is untouched. -/
theorem C9_importFromJSON_contract (parsed : Except String JVal) :
    ((importFromJSON parsed).success = true ↔
      ∃ v, parsed = .ok v ∧ envelopeHasBoardData v = true) ∧
    (∀ v, parsed = .ok v → (importFromJSON parsed).success = true →
      (importFromJSON parsed).data = fieldOf v "data") ∧
    ((importFromJSON parsed).success = false →
      (importFromJSON parsed).error ≠ none) := by
  rw [importFromJSON_eq]
  cases parsed with
  | error m =>
    refine ⟨?_, ?_, ?_⟩
    · simp
    · intro v hv
      cases hv
    · intro _
      simp
  | ok v =>
    cases hd : getFieldE v "data" with
    | error m =>
      have hf : fieldOf v "data" = .jundefined := fieldOf_of_getFieldE_error hd
      simp only [hd]
      refine ⟨?_, ?_, ?_⟩
      · simp [envelopeHasBoardData, hf, truthy]
      · intro w hw hs
        simp at hs
      · intro _
        simp
    | ok d1 =>
      have hd1 : d1 = fieldOf v "data" := getFieldE_ok_eq hd
      simp only [hd]
      by_cases hcond : (truthy d1 && truthy (fieldOf d1 "tasks") &&
          truthy (fieldOf d1 "columns")) = true
      · rw [if_pos hcond]
        refine ⟨?_, ?_, ?_⟩
        · refine ⟨fun _ => ⟨v, rfl, ?_⟩, fun _ => rfl⟩
          unfold envelopeHasBoardData
          rw [← hd1]
          exact hcond
        · intro w hw _
          have hwv : w = v := by
            injection hw with hw
            exact hw.symm
          subst hwv
          exact hd1
        · intro hs
          simp at hs
      · rw [if_neg hcond]
        refine ⟨?_, ?_, ?_⟩
        · refine ⟨fun h => absurd h (by simp), ?_⟩
          rintro ⟨w, hw, hpred⟩
          have hwv : w = v := by
            injection hw with hw
            exact hw.symm
          subst hwv
          unfold envelopeHasBoardData at hpred
          rw [← hd1] at hpred
          exact absurd hpred hcond
        · intro w hw hs
          simp at hs
        · intro _
          simp

def c9Envelope : JVal :=
  .jobj [("version", .jstr "1.0"), ("exportedAt", .jstr "1970-01-01"),
         ("data", .jobj [("tasks", .jobj []), ("columns", .jobj []),
                         ("columnOrder", .jarr [])])]

/-- Witness: the codec contract applied to a concrete well-formed
envelope, extracting that the returned data is the envelope's inner
data. -/
theorem C9_importFromJSON_contract_witness :
    (importFromJSON (.ok c9Envelope)).data = fieldOf c9Envelope "data" :=
  (C9_importFromJSON_contract (.ok c9Envelope)).2.1 c9Envelope rfl rfl

/-! ## Claim C10 -/

theorem filter_isSome_reduceOption {α β : Type} (xs : List α) (f : α → Option β) :
    ((xs.map f).filter Option.isSome).reduceOption = xs.filterMap f := by
  induction xs with
  | nil => rfl
  | cons a t ih =>
    cases hf : f a with
    | none => simpa [List.filterMap_cons, hf] using ih
    | some b => simpa [List.filterMap_cons, hf, List.reduceOption] using ih

/-- Claim C10: getTasksForColumn never fails on any board state: an
unknown column id yields the empty list, and otherwise the column's
`taskIds` are resolved against the tasks map in order, silently dropping
every id with no entry (`filter(Boolean)` on the mapped lookups), so no
missing entry is ever returned. -/
theorem C10_getTasksForColumn_total (b : Board) (columnId : String) :
    (jsGet b.columns columnId = none → getTasksForColumn b columnId = []) ∧
    (∀ column, jsGet b.columns columnId = some column →
      getTasksForColumn b columnId =
        column.taskIds.filterMap (fun taskId => jsGet b.tasks taskId)) := by
  constructor
  · intro h
    unfold getTasksForColumn
    rw [h]
  · intro column h
    unfold getTasksForColumn
    rw [h]
    exact filter_isSome_reduceOption column.taskIds (fun taskId => jsGet b.tasks taskId)

/-- Witness: the query applied to a concrete board, on its known
column. -/
theorem C10_getTasksForColumn_total_witness :
    getTasksForColumn boardOneTask "column-1" =
      (["task-1"].filterMap (fun taskId => jsGet boardOneTask.tasks taskId)) :=
  (C10_getTasksForColumn_total boardOneTask "column-1").2
    { id := "", title := "To Do", color := "bg-gray-100",
      taskIds := ["task-1"], createdAt := 1, updatedAt := 2, order := 0 } rfl

end KB
